import Mathlib

/- Verification of the benchmark-report generator
   src/experiments/analyze_benchmarks.py.

   Shallow embedding conventions:
   * a missing numeric value (pandas NaN) is `none`; a present finite value
     is an exact rational (`some q`).  IEEE rounding of finite values is
     abstracted away (Python guarantees value-preserving float/str round
     trips for finite floats), but overflow of `float(...)` to an infinity
     is modeled, since it is observable behaviour of `extract_number`.
   * the `Method` column holds strings and is exempt from numeric coercion
     (clean_numeric_columns, lines 87-93).
   * file system and plotting side effects are modeled as the list of file
     names a run writes. -/

deriving instance DecidableEq for Except

namespace AB

/-! ### Python string helpers used by canonicalize_columns (lines 52-84) -/

/-- Whitespace characters removed by Python `str.strip()` (ASCII subset). -/
def wsChar (c : Char) : Bool :=
  c == ' ' || c == '\t' || c == '\n' || c == '\r' || c == '\x0b' || c == '\x0c'

/-- Model of Python `str.strip()`. -/
def pyStrip (cs : List Char) : List Char :=
  ((cs.dropWhile wsChar).reverse.dropWhile wsChar).reverse

/-- Model of Python `str.lower()` (ASCII). -/
def lowerList (cs : List Char) : List Char :=
  cs.map Char.toLower

/-- Model of the Python substring test `pat in cs`. -/
def isSub (pat cs : List Char) : Bool :=
  cs.tails.any (fun t => pat.isPrefixOf t)

def kwMethod : List Char := ("method").toList
def kwMean : List Char := ("mean").toList
def kwAvg : List Char := ("avg").toList
def kwStd : List Char := ("std").toList
def kwCi : List Char := ("ci").toList
def kw95 : List Char := ("95").toList
def kwFallback : List Char := ("fallback").toList
def kwAccuracy : List Char := ("accuracy").toList
def kwSample : List Char := ("sample").toList
def kwInput : List Char := ("input").toList
def kwLen : List Char := ("len").toList
def kwMin : List Char := ("min").toList
def kwMax : List Char := ("max").toList
def kwN : List Char := [('n')]

/-- The lower-cased, stripped header that `canonicalize_columns` tests
    (the frame is first renamed to stripped headers, line 54-55, then each
    header is lower-cased, line 59). -/
def canonLC (c : String) : List Char :=
  lowerList (pyStrip c.toList)

/-- Model of `canonicalize_columns` (lines 52-84) acting on one header:
    the elif chain of lines 60-83, first match wins; an unmapped header
    keeps its stripped name. -/
def canonName (c : String) : String :=
  if isSub kwMethod (canonLC c) then ("Method")
  else if (isSub kwMean (canonLC c) && !(isSub kwCi (canonLC c))) || isSub kwAvg (canonLC c) then ("Mean_ms")
  else if isSub kwStd (canonLC c) then ("StdDev_ms")
  else if isSub kwCi (canonLC c) && isSub kw95 (canonLC c) then ("CI95_ms")
  else if isSub kwFallback (canonLC c) then ("Fallback_pct")
  else if isSub kwAccuracy (canonLC c) then ("Accuracy_pct")
  else if isSub kwSample (canonLC c) || pyStrip (canonLC c) == kwN then ("Samples")
  else if isSub kwInput (canonLC c) && isSub kwLen (canonLC c) then ("InputLength")
  else if isSub kwMin (canonLC c) then ("Min_ms")
  else if isSub kwMax (canonLC c) then ("Max_ms")
  else String.mk (pyStrip c.toList)

/-- Canonicalization of a whole header row. -/
def canonCols (hs : List String) : List String :=
  hs.map canonName

/-- Modelled from the spec (section 4.2 / claim C4), for comparison with
    `canonName` only: the ordered substring rules exactly as the spec
    words them - mean/avg first, ..., method last, no stripping, plain
    `mean` substring with no `ci` exception; unmapped headers keep their
    original name. -/
def canonNameSpec (c : String) : String :=
  if isSub kwMean (lowerList c.toList) || isSub kwAvg (lowerList c.toList) then ("Mean_ms")
  else if isSub kwStd (lowerList c.toList) then ("StdDev_ms")
  else if isSub kwCi (lowerList c.toList) && isSub kw95 (lowerList c.toList) then ("CI95_ms")
  else if isSub kwFallback (lowerList c.toList) then ("Fallback_pct")
  else if isSub kwAccuracy (lowerList c.toList) then ("Accuracy_pct")
  else if isSub kwSample (lowerList c.toList) || lowerList c.toList == kwN then ("Samples")
  else if isSub kwInput (lowerList c.toList) && isSub kwLen (lowerList c.toList) then ("InputLength")
  else if isSub kwMin (lowerList c.toList) then ("Min_ms")
  else if isSub kwMax (lowerList c.toList) then ("Max_ms")
  else if isSub kwMethod (lowerList c.toList) then ("Method")
  else c

/-! ### extract_number (lines 29-36)

The regular expression of line 29 is
`[+-]?\d*\.?\d+(?:[eE][+-]?\d+)?` and `re.search` takes the leftmost
match (with the usual greedy backtracking inside one starting position).
We model the matcher directly for this one pattern. -/

/-- A match of the numeric pattern: optional sign, integer-part digits,
    fraction digits (empty when no `.digits` part was matched) and an
    optional exponent (sign, digits). -/
structure NumTok where
  neg : Bool
  ip : List Char
  fp : List Char
  exp : Option (Bool × List Char)
  deriving DecidableEq

/-- The optional exponent group `(?:[eE][+-]?\d+)?`: it participates in the
    match only when `[eE]`, an optional sign and at least one digit are
    present; otherwise it matches the empty string (`none`). -/
def expPart (cs : List Char) : Option (Bool × List Char) :=
  match cs with
  | [] => none
  | c :: rest =>
    if c == 'e' || c == 'E' then
      match rest with
      | [] => none
      | s :: r2 =>
        if s == '+' then
          (if (r2.takeWhile Char.isDigit).isEmpty then none
           else some (false, r2.takeWhile Char.isDigit))
        else if s == '-' then
          (if (r2.takeWhile Char.isDigit).isEmpty then none
           else some (true, r2.takeWhile Char.isDigit))
        else
          (if (rest.takeWhile Char.isDigit).isEmpty then none
           else some (false, rest.takeWhile Char.isDigit))
    else none

/-- The sign-less core `\d*\.?\d+(?:[eE][+-]?\d+)?` at one position, with
    the backtracking behaviour of the Python engine:
    * maximal digit run `d1`, then `.` and a nonempty digit run `d2`
      (then the exponent) when possible;
    * when a `.` follows `d1` but no digit follows the `.`, the engine
      backtracks and the match is just `d1` (no exponent: the next
      character is the `.`);
    * with no `.`, the match is `d1` followed by the optional exponent. -/
def coreTok (cs : List Char) : Option NumTok :=
  match cs.dropWhile Char.isDigit with
  | c :: r2 =>
    if c == '.' then
      (if (r2.takeWhile Char.isDigit).isEmpty then
        (if (cs.takeWhile Char.isDigit).isEmpty then none
         else some ⟨false, cs.takeWhile Char.isDigit, [], none⟩)
      else
        some ⟨false, cs.takeWhile Char.isDigit, r2.takeWhile Char.isDigit,
              expPart (r2.dropWhile Char.isDigit)⟩)
    else
      (if (cs.takeWhile Char.isDigit).isEmpty then none
       else some ⟨false, cs.takeWhile Char.isDigit, [], expPart (c :: r2)⟩)
  | [] =>
    if (cs.takeWhile Char.isDigit).isEmpty then none
    else some ⟨false, cs.takeWhile Char.isDigit, [], expPart []⟩

/-- One attempt of the full pattern `[+-]?...` at a fixed position. -/
def matchAt (cs : List Char) : Option NumTok :=
  match cs with
  | [] => none
  | c :: rest =>
    if c == '+' then coreTok rest
    else if c == '-' then (coreTok rest).map (fun t => { t with neg := true })
    else coreTok cs

/-- `re.search`: try every position, leftmost first. -/
def searchTok : List Char → Option NumTok
  | [] => none
  | c :: cs =>
    match matchAt (c :: cs) with
    | some t => some t
    | none => searchTok cs

/-- Value of a digit run, most significant first. -/
def digitsVal (ds : List Char) : ℕ :=
  ds.foldl (fun a c => 10 * a + (c.toNat - 48)) 0

def expVal (e : Option (Bool × List Char)) : ℤ :=
  match e with
  | none => 0
  | some (sgn, ds) => if sgn then -(digitsVal ds : ℤ) else (digitsVal ds : ℤ)

/-- Exact value of the matched literal (what `float(m.group(0))` denotes
    before IEEE rounding). -/
def tokVal (t : NumTok) : ℚ :=
  (if t.neg then
      -((digitsVal t.ip : ℚ) + (digitsVal t.fp : ℚ) / (10 : ℚ) ^ t.fp.length)
    else
      ((digitsVal t.ip : ℚ) + (digitsVal t.fp : ℚ) / (10 : ℚ) ^ t.fp.length))
    * (10 : ℚ) ^ expVal t.exp

/-- Result type of `extract_number`: NaN (the missing-value sentinel),
    the two infinities `float()` can overflow to, or a finite value. -/
inductive PyNum where
  | nan
  | inf
  | ninf
  | num (q : ℚ)
  deriving DecidableEq

/-- Overflow threshold of IEEE double `float(...)` under round-half-even:
    magnitudes at or above `2^1024 - 2^970` become infinite. -/
def ovf : ℚ := 2 ^ 1024 - 2 ^ 970

/-- Conversion of the exact literal value to a Python float, keeping
    finite values exact. -/
def pyFloatOfRat (q : ℚ) : PyNum :=
  if ovf ≤ q then PyNum.inf
  else if q ≤ -ovf then PyNum.ninf
  else PyNum.num q

/-- Model of `extract_number` (lines 31-36): `none` is a NaN input
    (pd.isna), otherwise the first regex match is converted by `float`,
    and no match yields NaN. -/
def extractNumber (cell : Option String) : PyNum :=
  match cell with
  | none => PyNum.nan
  | some s =>
    match searchTok s.toList with
    | none => PyNum.nan
    | some t => pyFloatOfRat (tokVal t)

/-! ### Model of Python `str` on floats

For finite values Python prints the shortest decimal literal that
round-trips; on the exact-rational model this is the plain decimal
expansion (Python switches to exponent notation for extreme magnitudes,
which is equally re-extractable, so value behaviour is unchanged).
`str` of the infinities is `inf`/`-inf`, which contains no digit. -/

def digitChar (n : ℕ) : Char :=
  if n = 0 then '0'
  else if n = 1 then '1'
  else if n = 2 then '2'
  else if n = 3 then '3'
  else if n = 4 then '4'
  else if n = 5 then '5'
  else if n = 6 then '6'
  else if n = 7 then '7'
  else if n = 8 then '8'
  else '9'

/-- Decimal digits of a natural number, most significant first. -/
def natDigits (n : ℕ) : List Char :=
  if h : n < 10 then [digitChar n]
  else natDigits (n / 10) ++ [digitChar (n % 10)]
  termination_by n
  decreasing_by exact Nat.div_lt_self (by omega) (by norm_num)

/-- Smallest `k ≤ d` with `d ∣ 10^k` (exists whenever `d` divides a power
    of ten, which holds for every denominator `extract_number` can
    produce); defaults to `d`. -/
def pow10Exp (d : ℕ) : ℕ :=
  (((List.range (d + 1)).find? (fun k => 10 ^ k % d == 0)).getD d)

/-- Digits padded on the left with zeros to length at least `k + 1`, so a
    decimal point can be inserted `k` places from the right. -/
def padDigits (k : ℕ) (ds : List Char) : List Char :=
  List.replicate (k + 1 - ds.length) '0' ++ ds

/-- Digits of `|m|` with a decimal point `k` places from the right
    (omitted for `k = 0`). -/
def renderDigits (m : ℤ) (k : ℕ) : List Char :=
  if k = 0 then padDigits k (natDigits m.natAbs)
  else
    (padDigits k (natDigits m.natAbs)).take ((padDigits k (natDigits m.natAbs)).length - k)
    ++ '.' :: (padDigits k (natDigits m.natAbs)).drop ((padDigits k (natDigits m.natAbs)).length - k)

/-- Plain decimal rendering of a rational whose denominator divides a
    power of ten (the only rationals a parsed literal can denote). -/
def renderQ (q : ℚ) : String :=
  String.mk
    (if q.num * (10 : ℤ) ^ pow10Exp q.den / (q.den : ℤ) < 0 then
        '-' :: renderDigits (q.num * (10 : ℤ) ^ pow10Exp q.den / (q.den : ℤ)) (pow10Exp q.den)
      else renderDigits (q.num * (10 : ℤ) ^ pow10Exp q.den / (q.den : ℤ)) (pow10Exp q.den))

/-- Model of Python `str` on the values `extract_number` can produce. -/
def strOfPyNum : PyNum → String
  | PyNum.nan => ("nan")
  | PyNum.inf => ("inf")
  | PyNum.ninf => ("-inf")
  | PyNum.num q => renderQ q

/-! ### The canonicalized, cleaned data table (state after line 220)

A row has its `Method` string and a numeric cell per column name; a
missing or unparseable cell is `none`.  (The rare infinite values of
`extract_number` are outside this table model; all pipeline claims are
about missingness and finite arithmetic.)  Columns are assumed distinct,
as in every table pandas can `groupby` without ambiguity. -/

structure Row where
  method : String
  cell : String → Option ℚ

structure Table where
  cols : List String
  rows : List Row

/-- Build a row's cells from an association list (absent names are NaN). -/
def cellsOf (l : List (String × ℚ)) : String → Option ℚ :=
  fun c => (l.find? (fun p => p.fst == c)).map (fun p => p.snd)

/-- The five columns the aggregation dict of lines 233-239 refers to.
    pandas `DataFrameGroupBy.agg` raises `KeyError` when any dict key is
    not a column of the frame, so all five must be present. -/
def requiredCols : List String :=
  [("Mean_ms"), ("StdDev_ms"), ("Fallback_pct"), ("Accuracy_pct"), ("Samples")]

/-- pandas mean aggregation: NaN values are skipped; all-NaN gives NaN. -/
def nanMean (xs : List (Option ℚ)) : Option ℚ :=
  match xs.filterMap id with
  | [] => none
  | v => some (v.sum / (v.length : ℚ))

/-- pandas max aggregation: NaN values are skipped; all-NaN gives NaN. -/
def nanMax (xs : List (Option ℚ)) : Option ℚ :=
  match xs.filterMap id with
  | [] => none
  | x :: t => some (t.foldl max x)

/-- Python string comparison (lexicographic on code points), used by
    pandas to sort group keys (`groupby` defaults to `sort=True`). -/
def charListLt : List Char → List Char → Bool
  | _, [] => false
  | [], _ :: _ => true
  | a :: as2, b :: bs => if a < b then true else if b < a then false else charListLt as2 bs

def strLt (a b : String) : Bool := charListLt a.toList b.toList

/-- Duplicate removal (only the set matters: keys are sorted next). -/
def dedup : List String → List String
  | [] => []
  | x :: xs => if (dedup xs).contains x then dedup xs else x :: dedup xs

/-- Insertion sort; with `le` the sort is stable like Python `sorted`. -/
def insertBy (le : α → α → Bool) (x : α) : List α → List α
  | [] => [x]
  | y :: ys => if le x y then x :: y :: ys else y :: insertBy le x ys

def insSortBy (le : α → α → Bool) : List α → List α
  | [] => []
  | x :: xs => insertBy le x (insSortBy le xs)

/-- The sorted distinct `Method` values: row order of the groupby result. -/
def groupKeys (t : Table) : List String :=
  insSortBy strLt (dedup (t.rows.map (fun r => r.method)))

def groupRows (t : Table) (k : String) : List Row :=
  t.rows.filter (fun r => r.method == k)

/-- One row of the `summary` frame produced by lines 233-239. -/
structure AggRow where
  Method : String
  Mean_ms : Option ℚ
  StdDev_ms : Option ℚ
  Fallback_pct : Option ℚ
  Accuracy_pct : Option ℚ
  Samples : Option ℚ
  deriving DecidableEq

/-- Model of `df.groupby('Method', as_index=False).agg({...})`
    (lines 233-239).  The dict maps the five summary columns to
    mean/mean/mean/mean/max; pandas raises `KeyError` when a dict key is
    absent from the frame (so the `else`-aggregators of lines 234-238 and
    the synthesize-missing-columns loop of lines 242-244 are dead code).
    Every row of `df` is grouped - including per-sample detail rows. -/
def aggregate (t : Table) : Except String (List AggRow) :=
  if requiredCols.all (fun c => t.cols.contains c) then
    Except.ok ((groupKeys t).map (fun k =>
      { Method := k
        Mean_ms := nanMean ((groupRows t k).map (fun r => r.cell ("Mean_ms")))
        StdDev_ms := nanMean ((groupRows t k).map (fun r => r.cell ("StdDev_ms")))
        Fallback_pct := nanMean ((groupRows t k).map (fun r => r.cell ("Fallback_pct")))
        Accuracy_pct := nanMean ((groupRows t k).map (fun r => r.cell ("Accuracy_pct")))
        Samples := nanMax ((groupRows t k).map (fun r => r.cell ("Samples"))) }))
  else Except.error ("KeyError")

/-- Python `int()` on a float: truncation toward zero. -/
def pyTrunc (q : ℚ) : ℤ :=
  if 0 ≤ q then ⌊q⌋ else ⌈q⌉

/-- Model of `compute_ci95` (lines 96-99): NaN when the standard
    deviation is missing or `n ≤ 0`, else `1.96 * std / sqrt(n)`. -/
noncomputable def compute_ci95 (std : Option ℚ) (n : ℤ) : Option ℝ :=
  match std with
  | none => none
  | some s => if n ≤ 0 then none else some ((1.96 : ℝ) * (s : ℝ) / Real.sqrt (n : ℝ))

/-- A `summary` row after lines 247-248: `Samples` filled with the
    `--assume-n` value, and a `CI95_ms` column added.  The aggregation
    dict of line 233 dropped any source `CI95_ms` column, so the guard
    `'CI95_ms' in summary.columns` of line 248 is always false and the
    fallback `compute_ci95(StdDev_ms, int(Samples))` is always used. -/
structure CIRow where
  Method : String
  Mean_ms : Option ℚ
  StdDev_ms : Option ℚ
  Fallback_pct : Option ℚ
  Accuracy_pct : Option ℚ
  Samples : ℚ
  CI95_ms : Option ℝ

noncomputable def fillCI (assumeN : ℤ) (r : AggRow) : CIRow :=
  { Method := r.Method
    Mean_ms := r.Mean_ms
    StdDev_ms := r.StdDev_ms
    Fallback_pct := r.Fallback_pct
    Accuracy_pct := r.Accuracy_pct
    Samples := r.Samples.getD (assumeN : ℚ)
    CI95_ms := compute_ci95 r.StdDev_ms (pyTrunc (r.Samples.getD (assumeN : ℚ))) }

/-- The rows written to the summary CSV (line 258): the `summary` frame
    after the CI stage, still in groupby order - the sort of line 274
    happens later and only affects `summary_rows`. -/
noncomputable def summaryRows (t : Table) (assumeN : ℤ) : Except String (List CIRow) :=
  (aggregate t).map (fun l => l.map (fillCI assumeN))

/-- One entry of `summary_rows` (lines 261-271): missing values replaced
    by the rendering defaults. -/
structure RRow where
  Method : String
  Mean_ms : ℚ
  StdDev_ms : ℚ
  Fallback_pct : ℚ
  Accuracy_pct : ℚ
  CI95_ms : ℝ
  Samples : ℤ

/-- Lines 263-271: defaults 0.0 for Mean/Std/CI/Fallback, 100.0 for
    Accuracy, `int(Samples)` for Samples (never missing after the fill of
    line 247, so its `else args.assume_n` is dead code). -/
noncomputable def renderRow (r : CIRow) : RRow :=
  { Method := r.Method
    Mean_ms := r.Mean_ms.getD 0
    StdDev_ms := r.StdDev_ms.getD 0
    Fallback_pct := r.Fallback_pct.getD 0
    Accuracy_pct := r.Accuracy_pct.getD 100
    CI95_ms := r.CI95_ms.getD 0
    Samples := pyTrunc r.Samples }

def rrowLe (a b : RRow) : Bool := decide (a.Mean_ms ≤ b.Mean_ms)

/-- The rows every renderer receives (bar chart, markdown, LaTeX):
    `summary_rows` sorted ascending by the defaulted `Mean_ms`
    (line 274). -/
noncomputable def renderedRows (t : Table) (assumeN : ℤ) : Except String (List RRow) :=
  (summaryRows t assumeN).map (fun l => insSortBy rrowLe (l.map renderRow))

/-! ### Control flow of main (lines 202-307) -/

/-- Observable outcome of one run: the files written, the diagnostic
    printed (if any) and the process exit code.  `main` returns normally
    in the no-CSV and no-Method cases (exit code 0, like success); an
    uncaught `KeyError` from the aggregation terminates the interpreter
    with exit code 1. -/
structure RunOut where
  outputs : List String
  diagnostic : Option String
  exitCode : ℕ
  deriving DecidableEq

/-- Model of `main` after locating the CSV: the input is the
    canonicalized cleaned table (`none` when no CSV was found and no
    `--csv` was given).  Output file names are abstracted (the `_stem`
    suffixes carry no logic). -/
def runMain (input : Option Table) : RunOut :=
  match input with
  | none => ⟨[], some ("no CSV found"), 0⟩
  | some t =>
    if ("Method") ∈ t.cols then
      match aggregate t with
      | Except.error e => ⟨[], some e, 1⟩
      | Except.ok _ =>
        ⟨[("summary.csv"), ("runtime_comparison.png")]
          ++ (if ("InputLength") ∈ t.cols ∧ ("Runtime_ms") ∈ t.cols
              then [("runtime_scaling.png")] else [])
          ++ [("summary.md"), ("table.tex")],
         none, 0⟩
    else ⟨[], some ("CSV missing Method column; aborting"), 0⟩

/-! ### Concrete tables used by the counterexamples and witnesses -/

def sumCols : List String :=
  [("Method"), ("Mean_ms"), ("StdDev_ms"), ("Fallback_pct"), ("Accuracy_pct"), ("Samples")]

/-- A table that also carries a source CI95 column (value 99), with
    StdDev 1 and 4 samples. -/
def exT1 : Table :=
  { cols := sumCols ++ [("CI95_ms")]
    rows := [{ method := ("A")
               cell := cellsOf [(("Mean_ms"), 1), (("StdDev_ms"), 1), (("Fallback_pct"), 0),
                                (("Accuracy_pct"), 100), (("Samples"), 4), (("CI95_ms"), 99)] }] }

def exAgg1 : AggRow :=
  { Method := ("A"), Mean_ms := some 1, StdDev_ms := some 1, Fallback_pct := some 0,
    Accuracy_pct := some 100, Samples := some 4 }

/-- A CSV with only a Method column (spec: valid input). -/
def methodOnlyTable : Table :=
  { cols := [("Method")], rows := [{ method := ("Regex"), cell := fun _ => none }] }

/-- A mixed table: one per-method summary row for "A" and one per-sample
    detail row for "B" (InputLength/Runtime_ms present, summary cells
    missing). -/
def exT3 : Table :=
  { cols := sumCols ++ [("InputLength"), ("Runtime_ms")]
    rows := [{ method := ("A")
               cell := cellsOf [(("Mean_ms"), 5), (("StdDev_ms"), 1), (("Fallback_pct"), 0),
                                (("Accuracy_pct"), 100), (("Samples"), 4)] },
             { method := ("B")
               cell := cellsOf [(("InputLength"), 10), (("Runtime_ms"), 7)] }] }

/-- `exT3` with the detail row removed. -/
def exT3s : Table :=
  { cols := exT3.cols, rows := [exT3.rows.headD { method := ("A"), cell := fun _ => none }] }

/-- Two methods whose name order disagrees with their mean order. -/
def exT6 : Table :=
  { cols := sumCols
    rows := [{ method := ("A")
               cell := cellsOf [(("Mean_ms"), 10), (("StdDev_ms"), 1), (("Fallback_pct"), 0),
                                (("Accuracy_pct"), 100), (("Samples"), 4)] },
             { method := ("B")
               cell := cellsOf [(("Mean_ms"), 5), (("StdDev_ms"), 1), (("Fallback_pct"), 0),
                                (("Accuracy_pct"), 100), (("Samples"), 4)] }] }

/-- All five summary columns present but every cell missing. -/
def exW : Table :=
  { cols := sumCols, rows := [{ method := ("A"), cell := fun _ => none }] }

def exAggW : AggRow :=
  { Method := ("A"), Mean_ms := none, StdDev_ms := none, Fallback_pct := none,
    Accuracy_pct := none, Samples := none }

def tNoMethod : Table :=
  { cols := [("Foo")], rows := [] }

/-- An aggregated row with a fractional sample count (reachable: a
    `Samples` cell `0.5` survives the max-aggregation unchanged). -/
def rHalf : AggRow :=
  { Method := ("A"), Mean_ms := some 1, StdDev_ms := some 1, Fallback_pct := some 0,
    Accuracy_pct := some 100, Samples := some (1/2) }

def rFour : AggRow :=
  { Method := ("A"), Mean_ms := some 1, StdDev_ms := some 1, Fallback_pct := some 0,
    Accuracy_pct := some 100, Samples := some 4 }

/-- A summary row with every aggregated value missing (CI stage already
    applied with assume-n 4). -/
noncomputable def cW : CIRow :=
  { Method := ("A"), Mean_ms := none, StdDev_ms := none, Fallback_pct := none,
    Accuracy_pct := none, Samples := 4, CI95_ms := none }

/-- The rendered row a fully-missing method produces with assume-n 30. -/
noncomputable def rrW : RRow :=
  { Method := ("A"), Mean_ms := 0, StdDev_ms := 0, Fallback_pct := 0,
    Accuracy_pct := 100, CI95_ms := 0, Samples := 30 }

/-! ## Theorems -/

/-! ### Generic evaluation and sorting lemmas -/

theorem nanMean_single (q : ℚ) : nanMean [some q] = some q := by
  simp [nanMean]

theorem nanMax_single (q : ℚ) : nanMax [some q] = some q := by
  simp [nanMax]

theorem chain_insertBy {α : Type} (le : α → α → Bool)
    (htot : ∀ a b, le a b = true ∨ le b a = true) (x : α) :
    ∀ l : List α, List.Chain' (fun a b => le a b = true) l →
      List.Chain' (fun a b => le a b = true) (insertBy le x l) := by
  intro l
  induction l with
  | nil => intro _; simp [insertBy]
  | cons y ys ih =>
    intro hl
    rw [List.chain'_cons'] at hl
    simp only [insertBy]
    by_cases hxy : le x y = true
    · rw [if_pos hxy, List.chain'_cons']
      refine ⟨?_, List.chain'_cons'.mpr hl⟩
      intro b hb
      simp only [List.head?_cons, Option.mem_def, Option.some.injEq] at hb
      subst hb
      exact hxy
    · rw [if_neg hxy, List.chain'_cons']
      have hyx : le y x = true := (htot x y).resolve_left hxy
      refine ⟨?_, ih hl.2⟩
      intro b hb
      cases ys with
      | nil =>
        simp only [insertBy, List.head?_cons, Option.mem_def, Option.some.injEq] at hb
        subst hb
        exact hyx
      | cons z zs =>
        simp only [insertBy] at hb
        by_cases hxz : le x z = true
        · rw [if_pos hxz] at hb
          simp only [List.head?_cons, Option.mem_def, Option.some.injEq] at hb
          subst hb
          exact hyx
        · rw [if_neg hxz] at hb
          simp only [List.head?_cons, Option.mem_def, Option.some.injEq] at hb
          subst hb
          exact hl.1 z (by simp)

theorem chain_insSortBy {α : Type} (le : α → α → Bool)
    (htot : ∀ a b, le a b = true ∨ le b a = true) :
    ∀ l : List α, List.Chain' (fun a b => le a b = true) (insSortBy le l) := by
  intro l
  induction l with
  | nil => simp [insSortBy]
  | cons x xs ih => exact chain_insertBy le htot x _ ih

/-- Headers canonicalized to a literal canonical name never give
    `Runtime_ms`; the fallthrough branch returns the stripped header. -/
theorem canonName_eq_runtime (c : String) :
    canonName c = ("Runtime_ms") → pyStrip c.toList = ("Runtime_ms").toList := by
  unfold canonName
  split_ifs <;> intro hc
  · exact absurd hc (by decide)
  · exact absurd hc (by decide)
  · exact absurd hc (by decide)
  · exact absurd hc (by decide)
  · exact absurd hc (by decide)
  · exact absurd hc (by decide)
  · exact absurd hc (by decide)
  · exact absurd hc (by decide)
  · exact absurd hc (by decide)
  · exact absurd hc (by decide)
  · exact congrArg String.data hc

/-! ### C4 -/

/-- C4 is false as stated: the code tests `method` first (line 60), not
    last, and its mean rule excludes headers containing `ci` (line 62).
    A header containing both `mean` and `method` canonicalizes to
    `Method`, and `MeanCI` stays unmapped, while the spec's rule order
    would give `Mean_ms` for both. -/
theorem canon_order_cx :
    canonName ("mean method") = ("Method")
  ∧ canonNameSpec ("mean method") = ("Mean_ms")
  ∧ canonName ("MeanCI") = ("MeanCI")
  ∧ canonNameSpec ("MeanCI") = ("Mean_ms")
  ∧ (("Method") : String) ≠ ("Mean_ms") := by
  refine ⟨by decide, by decide, by decide, by decide, by decide⟩

/-- C4 (amended): canonicalization strips and lower-cases the header and
    applies first-match-wins ordered rules with `method` first:
    method; then (mean-without-ci or avg); std; ci and 95; fallback;
    accuracy; (sample, or stripped text exactly `n`); input and len;
    min; max; an unmapped header keeps its stripped name. -/
theorem canonName_rules (c : String) :
    (isSub kwMethod (canonLC c) = true → canonName c = ("Method"))
  ∧ (isSub kwMethod (canonLC c) = false →
      ((isSub kwMean (canonLC c) && !(isSub kwCi (canonLC c))) || isSub kwAvg (canonLC c)) = true →
      canonName c = ("Mean_ms"))
  ∧ (isSub kwMethod (canonLC c) = false →
      ((isSub kwMean (canonLC c) && !(isSub kwCi (canonLC c))) || isSub kwAvg (canonLC c)) = false →
      isSub kwStd (canonLC c) = true → canonName c = ("StdDev_ms"))
  ∧ (isSub kwMethod (canonLC c) = false →
      ((isSub kwMean (canonLC c) && !(isSub kwCi (canonLC c))) || isSub kwAvg (canonLC c)) = false →
      isSub kwStd (canonLC c) = false →
      (isSub kwCi (canonLC c) && isSub kw95 (canonLC c)) = true → canonName c = ("CI95_ms"))
  ∧ (isSub kwMethod (canonLC c) = false →
      ((isSub kwMean (canonLC c) && !(isSub kwCi (canonLC c))) || isSub kwAvg (canonLC c)) = false →
      isSub kwStd (canonLC c) = false →
      (isSub kwCi (canonLC c) && isSub kw95 (canonLC c)) = false →
      isSub kwFallback (canonLC c) = true → canonName c = ("Fallback_pct"))
  ∧ (isSub kwMethod (canonLC c) = false →
      ((isSub kwMean (canonLC c) && !(isSub kwCi (canonLC c))) || isSub kwAvg (canonLC c)) = false →
      isSub kwStd (canonLC c) = false →
      (isSub kwCi (canonLC c) && isSub kw95 (canonLC c)) = false →
      isSub kwFallback (canonLC c) = false →
      isSub kwAccuracy (canonLC c) = true → canonName c = ("Accuracy_pct"))
  ∧ (isSub kwMethod (canonLC c) = false →
      ((isSub kwMean (canonLC c) && !(isSub kwCi (canonLC c))) || isSub kwAvg (canonLC c)) = false →
      isSub kwStd (canonLC c) = false →
      (isSub kwCi (canonLC c) && isSub kw95 (canonLC c)) = false →
      isSub kwFallback (canonLC c) = false →
      isSub kwAccuracy (canonLC c) = false →
      (isSub kwSample (canonLC c) || pyStrip (canonLC c) == kwN) = true →
      canonName c = ("Samples"))
  ∧ (isSub kwMethod (canonLC c) = false →
      ((isSub kwMean (canonLC c) && !(isSub kwCi (canonLC c))) || isSub kwAvg (canonLC c)) = false →
      isSub kwStd (canonLC c) = false →
      (isSub kwCi (canonLC c) && isSub kw95 (canonLC c)) = false →
      isSub kwFallback (canonLC c) = false →
      isSub kwAccuracy (canonLC c) = false →
      (isSub kwSample (canonLC c) || pyStrip (canonLC c) == kwN) = false →
      (isSub kwInput (canonLC c) && isSub kwLen (canonLC c)) = true →
      canonName c = ("InputLength"))
  ∧ (isSub kwMethod (canonLC c) = false →
      ((isSub kwMean (canonLC c) && !(isSub kwCi (canonLC c))) || isSub kwAvg (canonLC c)) = false →
      isSub kwStd (canonLC c) = false →
      (isSub kwCi (canonLC c) && isSub kw95 (canonLC c)) = false →
      isSub kwFallback (canonLC c) = false →
      isSub kwAccuracy (canonLC c) = false →
      (isSub kwSample (canonLC c) || pyStrip (canonLC c) == kwN) = false →
      (isSub kwInput (canonLC c) && isSub kwLen (canonLC c)) = false →
      isSub kwMin (canonLC c) = true → canonName c = ("Min_ms"))
  ∧ (isSub kwMethod (canonLC c) = false →
      ((isSub kwMean (canonLC c) && !(isSub kwCi (canonLC c))) || isSub kwAvg (canonLC c)) = false →
      isSub kwStd (canonLC c) = false →
      (isSub kwCi (canonLC c) && isSub kw95 (canonLC c)) = false →
      isSub kwFallback (canonLC c) = false →
      isSub kwAccuracy (canonLC c) = false →
      (isSub kwSample (canonLC c) || pyStrip (canonLC c) == kwN) = false →
      (isSub kwInput (canonLC c) && isSub kwLen (canonLC c)) = false →
      isSub kwMin (canonLC c) = false →
      isSub kwMax (canonLC c) = true → canonName c = ("Max_ms"))
  ∧ (isSub kwMethod (canonLC c) = false →
      ((isSub kwMean (canonLC c) && !(isSub kwCi (canonLC c))) || isSub kwAvg (canonLC c)) = false →
      isSub kwStd (canonLC c) = false →
      (isSub kwCi (canonLC c) && isSub kw95 (canonLC c)) = false →
      isSub kwFallback (canonLC c) = false →
      isSub kwAccuracy (canonLC c) = false →
      (isSub kwSample (canonLC c) || pyStrip (canonLC c) == kwN) = false →
      (isSub kwInput (canonLC c) && isSub kwLen (canonLC c)) = false →
      isSub kwMin (canonLC c) = false →
      isSub kwMax (canonLC c) = false → canonName c = String.mk (pyStrip c.toList)) := by
  refine ⟨?_, ?_, ?_, ?_, ?_, ?_, ?_, ?_, ?_, ?_, ?_⟩
  · intro h1
    unfold canonName
    rw [if_pos h1]
  · intro h1 h2
    unfold canonName
    rw [if_neg (by simp [h1]), if_pos h2]
  · intro h1 h2 h3
    unfold canonName
    rw [if_neg (by simp [h1]), if_neg (by simp [h2]), if_pos h3]
  · intro h1 h2 h3 h4
    unfold canonName
    rw [if_neg (by simp [h1]), if_neg (by simp [h2]), if_neg (by simp [h3]), if_pos h4]
  · intro h1 h2 h3 h4 h5
    unfold canonName
    rw [if_neg (by simp [h1]), if_neg (by simp [h2]), if_neg (by simp [h3]),
      if_neg (by simp [h4]), if_pos h5]
  · intro h1 h2 h3 h4 h5 h6
    unfold canonName
    rw [if_neg (by simp [h1]), if_neg (by simp [h2]), if_neg (by simp [h3]),
      if_neg (by simp [h4]), if_neg (by simp [h5]), if_pos h6]
  · intro h1 h2 h3 h4 h5 h6 h7
    unfold canonName
    rw [if_neg (by simp [h1]), if_neg (by simp [h2]), if_neg (by simp [h3]),
      if_neg (by simp [h4]), if_neg (by simp [h5]), if_neg (by simp [h6]), if_pos h7]
  · intro h1 h2 h3 h4 h5 h6 h7 h8
    unfold canonName
    rw [if_neg (by simp [h1]), if_neg (by simp [h2]), if_neg (by simp [h3]),
      if_neg (by simp [h4]), if_neg (by simp [h5]), if_neg (by simp [h6]),
      if_neg (by simp [h7]), if_pos h8]
  · intro h1 h2 h3 h4 h5 h6 h7 h8 h9
    unfold canonName
    rw [if_neg (by simp [h1]), if_neg (by simp [h2]), if_neg (by simp [h3]),
      if_neg (by simp [h4]), if_neg (by simp [h5]), if_neg (by simp [h6]),
      if_neg (by simp [h7]), if_neg (by simp [h8]), if_pos h9]
  · intro h1 h2 h3 h4 h5 h6 h7 h8 h9 h10
    unfold canonName
    rw [if_neg (by simp [h1]), if_neg (by simp [h2]), if_neg (by simp [h3]),
      if_neg (by simp [h4]), if_neg (by simp [h5]), if_neg (by simp [h6]),
      if_neg (by simp [h7]), if_neg (by simp [h8]), if_neg (by simp [h9]), if_pos h10]
  · intro h1 h2 h3 h4 h5 h6 h7 h8 h9 h10
    unfold canonName
    rw [if_neg (by simp [h1]), if_neg (by simp [h2]), if_neg (by simp [h3]),
      if_neg (by simp [h4]), if_neg (by simp [h5]), if_neg (by simp [h6]),
      if_neg (by simp [h7]), if_neg (by simp [h8]), if_neg (by simp [h9]),
      if_neg (by simp [h10])]

theorem canonName_rules_witness :
    canonName (" Avg(ms) ") = ("Mean_ms") ∧ canonName ("Sample Count") = ("Samples") :=
  ⟨(canonName_rules (" Avg(ms) ")).2.1 (by decide) (by decide),
   (canonName_rules ("Sample Count")).2.2.2.2.2.2.1 (by decide) (by decide) (by decide)
     (by decide) (by decide) (by decide) (by decide)⟩

/-! ### C10 -/

/-- C10: no canonicalization rule produces `Runtime_ms`; it appears among
    canonical columns only when a source header strips to exactly
    `Runtime_ms`, and `Runtime(ms)` in particular stays unmapped. -/
theorem runtime_ms_only_literal (hs : List String) :
    (("Runtime_ms") ∈ canonCols hs → ∃ h0 ∈ hs, pyStrip h0.toList = ("Runtime_ms").toList)
  ∧ canonName ("Runtime(ms)") = ("Runtime(ms)") := by
  constructor
  · intro hmem
    simp only [canonCols, List.mem_map] at hmem
    obtain ⟨a, ha, heq⟩ := hmem
    exact ⟨a, ha, canonName_eq_runtime a heq⟩
  · decide

theorem runtime_ms_only_literal_witness :
    ∃ h0 ∈ [("Runtime_ms")], pyStrip h0.toList = ("Runtime_ms").toList :=
  (runtime_ms_only_literal [("Runtime_ms")]).1 (by decide)

/-! ### C2 -/

/-- C2 fails on the code: with only a `Method` column the aggregation of
    line 233 raises `KeyError` (the agg dict references the five summary
    columns unconditionally), so nothing is synthesized and no report is
    produced; the run dies with a traceback (exit code 1). -/
theorem aggregate_keyerror :
    aggregate methodOnlyTable = Except.error ("KeyError")
  ∧ methodOnlyTable.cols = [("Method")]
  ∧ runMain (some methodOnlyTable) = ⟨[], some ("KeyError"), 1⟩ := by
  refine ⟨by decide, by decide, by decide⟩

/-! ### C9 -/

/-- C9: with no CSV located (and no `--csv`), or with a canonicalized
    table lacking a `Method` column, `main` prints a diagnostic, returns
    early and writes no output file; the exit code is 0, the same as a
    successful run. -/
theorem early_return_exit_codes (t : Table) :
    ((runMain none).outputs = [] ∧ (runMain none).diagnostic.isSome = true
      ∧ (runMain none).exitCode = 0)
  ∧ (("Method") ∉ t.cols →
      ((runMain (some t)).outputs = [] ∧ (runMain (some t)).diagnostic.isSome = true
        ∧ (runMain (some t)).exitCode = 0))
  ∧ (∀ s, aggregate t = Except.ok s → (runMain (some t)).exitCode = 0) := by
  refine ⟨by simp [runMain], ?_, ?_⟩
  · intro h
    simp [runMain, h]
  · intro s hs
    by_cases hm : ("Method") ∈ t.cols
    · simp [runMain, hm, hs]
    · simp [runMain, hm]

theorem early_return_exit_codes_witness :
    (runMain (some tNoMethod)).outputs = [] ∧ (runMain (some exW)).exitCode = 0 :=
  ⟨((early_return_exit_codes tNoMethod).2.1 (by decide)).1,
   (early_return_exit_codes exW).2.2 [exAggW] (by decide)⟩

/-! ### C3 -/

/-- C3 is false on the code: line 233 groups the whole frame, so
    per-sample detail rows enter the aggregation.  Removing the detail
    row of `exT3` changes the summary: the detail-only method `B` gets
    its own summary row. -/
theorem detail_rows_cx :
    (aggregate exT3).map (fun l => l.map (fun r => r.Method)) = Except.ok [("A"), ("B")]
  ∧ (aggregate exT3s).map (fun l => l.map (fun r => r.Method)) = Except.ok [("A")]
  ∧ exT3.rows.map (fun r => r.cell ("Runtime_ms")) = [none, some 7]
  ∧ exT3.rows.map (fun r => r.cell ("Mean_ms")) = [some 5, none] := by
  refine ⟨by decide, by decide, by decide, by decide⟩

/-- C3 (amended): the copied detail frame feeds only the scaling plot,
    but the groupby of line 233 runs over every row of the original
    frame, per-sample detail rows included: the summary has one row per
    distinct `Method` value over all rows. -/
theorem aggregate_groups_every_row (t : Table) (s : List AggRow)
    (h : aggregate t = Except.ok s) :
    s.map (fun r => r.Method) = insSortBy strLt (dedup (t.rows.map (fun r => r.method))) := by
  unfold aggregate at h
  by_cases hc : (requiredCols.all (fun c => t.cols.contains c)) = true
  · rw [if_pos hc] at h
    injection h with hs
    subst hs
    simp only [groupKeys, List.map_map, Function.comp_def]
    exact List.map_id' _
  · rw [if_neg hc] at h
    exact absurd h (by simp)

theorem aggregate_groups_every_row_witness :
    List.map (fun r => AggRow.Method r) [exAggW]
      = insSortBy strLt (dedup (exW.rows.map (fun r => r.method))) :=
  aggregate_groups_every_row exW [exAggW] (by decide)

/-! ### C6 -/

/-- The CI stage does not change the mean column. -/
theorem summaryRows_mean (t : Table) (aN : ℤ) :
    (summaryRows t aN).map (fun l => l.map (fun r => r.Mean_ms))
      = (aggregate t).map (fun l => l.map (fun r => r.Mean_ms)) := by
  unfold summaryRows
  cases aggregate t <;> simp [Except.map, fillCI]

/-- C6 is false for the written summary CSV: line 258 writes the summary
    frame before the sort of line 274, in groupby order (ascending by
    Method name); with method A at mean 10 and method B at mean 5 the
    written rows are not ascending by Mean_ms. -/
theorem summary_csv_not_sorted_cx :
    (summaryRows exT6 30).map (fun l => l.map (fun r => r.Mean_ms))
      = Except.ok [some (10 : ℚ), some 5]
  ∧ ¬ ((10 : ℚ) ≤ 5) := by
  constructor
  · rw [summaryRows_mean]
    simp +decide [aggregate, groupKeys, groupRows, dedup, insSortBy, insertBy, strLt,
      charListLt, exT6, cellsOf, requiredCols, nanMean_single, nanMax_single, Except.map,
      sumCols]
  · norm_num

/-- C6 (amended): the rows handed to the renderers (bar chart, markdown,
    LaTeX) are `summary_rows` sorted ascending by the defaulted
    `Mean_ms` (line 274); the summary CSV of line 258 is written earlier,
    in groupby (Method-name) order, and need not be sorted by mean. -/
theorem renderer_rows_sorted (t : Table) (aN : ℤ) (l : List RRow)
    (h : renderedRows t aN = Except.ok l) :
    List.Chain' (fun a b => a.Mean_ms ≤ b.Mean_ms) l := by
  unfold renderedRows summaryRows at h
  cases hagg : aggregate t with
  | error e => rw [hagg] at h; simp [Except.map] at h
  | ok s =>
    rw [hagg] at h
    simp only [Except.map, Except.ok.injEq] at h
    subst h
    have htot : ∀ a b : RRow, rrowLe a b = true ∨ rrowLe b a = true := by
      intro a b
      rcases le_total a.Mean_ms b.Mean_ms with h2 | h2
      · exact Or.inl (by simp [rrowLe, h2])
      · exact Or.inr (by simp [rrowLe, h2])
    have hchain := chain_insSortBy rrowLe htot ((s.map (fillCI aN)).map renderRow)
    exact hchain.imp (fun hab => by simpa [rrowLe] using hab)

theorem renderer_rows_sorted_witness :
    List.Chain' (fun a b => a.Mean_ms ≤ b.Mean_ms) [rrW] :=
  renderer_rows_sorted exW 30 [rrW] (by
    have hagg : aggregate exW = Except.ok [exAggW] := by decide
    unfold renderedRows summaryRows
    rw [hagg]
    simp [Except.map, fillCI, renderRow, compute_ci95, insSortBy, insertBy, rrW, exAggW,
      pyTrunc])

/-! ### C7 -/

/-- C7: rendering replaces a missing Mean/StdDev/CI95/Fallback value by
    0.0 and a missing Accuracy by 100.0 (lines 263-271); a Samples value
    missing after aggregation becomes the assume-n constant (filled at
    line 247, truncated at line 270); an unparseable numeric cell
    extracts to the missing value NaN. -/
theorem rendering_defaults (aN : ℤ) (r : CIRow) (r2 : AggRow) :
    (r.Mean_ms = none → (renderRow r).Mean_ms = 0)
  ∧ (r.StdDev_ms = none → (renderRow r).StdDev_ms = 0)
  ∧ (r.CI95_ms = none → (renderRow r).CI95_ms = 0)
  ∧ (r.Fallback_pct = none → (renderRow r).Fallback_pct = 0)
  ∧ (r.Accuracy_pct = none → (renderRow r).Accuracy_pct = 100)
  ∧ (r2.Samples = none → (renderRow (fillCI aN r2)).Samples = aN)
  ∧ extractNumber (some ("N/A")) = PyNum.nan := by
  refine ⟨?_, ?_, ?_, ?_, ?_, ?_, by decide⟩
  · intro h; simp [renderRow, h]
  · intro h; simp [renderRow, h]
  · intro h; simp [renderRow, h]
  · intro h; simp [renderRow, h]
  · intro h; simp [renderRow, h]
  · intro h
    simp only [renderRow, fillCI, h, Option.getD_none]
    by_cases h0 : 0 ≤ (aN : ℚ) <;> simp [pyTrunc, h0]

theorem rendering_defaults_witness :
    (renderRow cW).Mean_ms = 0 ∧ (renderRow cW).CI95_ms = 0
  ∧ (renderRow cW).Accuracy_pct = 100
  ∧ (renderRow (fillCI 30 exAggW)).Samples = 30 :=
  ⟨(rendering_defaults 30 cW exAggW).1 rfl,
   (rendering_defaults 30 cW exAggW).2.2.1 rfl,
   (rendering_defaults 30 cW exAggW).2.2.2.2.1 rfl,
   (rendering_defaults 30 cW exAggW).2.2.2.2.2.1 rfl⟩

/-! ### C5 -/

/-- C5 is false as stated: line 248 truncates `Samples` with `int()`
    before `compute_ci95`, so a row with StdDev 1 and the positive
    sample count 1/2 gets a missing CI95 (rendered 0.0), not
    `1.96 * 1 / sqrt(1/2)` as the claim requires. -/
theorem ci95_fractional_cx :
    (fillCI 30 rHalf).CI95_ms = none
  ∧ rHalf.StdDev_ms = some 1
  ∧ (0 : ℚ) < rHalf.Samples.getD ((30 : ℤ) : ℚ) := by
  refine ⟨?_, rfl, by norm_num [rHalf]⟩
  simp only [fillCI, rHalf, compute_ci95, Option.getD_some]
  rw [if_pos (by norm_num [pyTrunc])]

/-- C5 (amended): no row ever has a source CI95 (see C1), and the
    fallback uses the `int()`-truncation of the filled Samples value:
    the CI95 is missing when StdDev_ms is missing or the truncated
    Samples is at most 0, and equals
    `1.96 * StdDev_ms / sqrt(trunc(Samples))` when StdDev_ms is present
    and the truncated Samples is positive. -/
theorem ci95_fallback_formula (aN : ℤ) (r : AggRow) :
    (r.StdDev_ms = none → (fillCI aN r).CI95_ms = none)
  ∧ (∀ s, r.StdDev_ms = some s → pyTrunc (r.Samples.getD (aN : ℚ)) ≤ 0 →
      (fillCI aN r).CI95_ms = none)
  ∧ (∀ s, r.StdDev_ms = some s → 0 < pyTrunc (r.Samples.getD (aN : ℚ)) →
      (fillCI aN r).CI95_ms =
        some ((1.96 : ℝ) * (s : ℝ) / Real.sqrt ((pyTrunc (r.Samples.getD (aN : ℚ)) : ℝ)))) := by
  refine ⟨?_, ?_, ?_⟩
  · intro h
    simp [fillCI, compute_ci95, h]
  · intro s hs hn
    simp only [fillCI, compute_ci95, hs]
    rw [if_pos hn]
  · intro s hs hn
    simp only [fillCI, compute_ci95, hs]
    rw [if_neg (not_le.mpr hn)]

theorem ci95_fallback_formula_witness :
    (fillCI 30 rFour).CI95_ms =
      some ((1.96 : ℝ) * ((1 : ℚ) : ℝ)
        / Real.sqrt ((pyTrunc (rFour.Samples.getD ((30 : ℤ) : ℚ)) : ℝ))) :=
  (ci95_fallback_formula 30 rFour).2.2 1 rfl (by norm_num [pyTrunc, rFour])

/-! ### C8: helper lemmas about the matcher and the decimal renderer -/

theorem toList_mk (l : List Char) : (String.mk l).toList = l := rfl

theorem tw_all (p : Char → Bool) :
    ∀ l : List Char, (∀ c ∈ l, p c = true) → l.takeWhile p = l ∧ l.dropWhile p = [] := by
  intro l
  induction l with
  | nil => intro _; simp
  | cons a t ih =>
    intro h
    have ha := h a (by simp)
    have ht := ih (fun c hc => h c (by simp [hc]))
    simp [List.takeWhile_cons, List.dropWhile_cons, ha, ht.1, ht.2]

theorem tw_break (p : Char → Bool) (x : Char) (r : List Char) (hx : p x = false) :
    ∀ l : List Char, (∀ c ∈ l, p c = true) →
      (l ++ x :: r).takeWhile p = l ∧ (l ++ x :: r).dropWhile p = x :: r := by
  intro l
  induction l with
  | nil =>
    intro _
    simp [List.takeWhile_cons, List.dropWhile_cons, hx]
  | cons a t ih =>
    intro h
    have ha := h a (by simp)
    have ht := ih (fun c hc => h c (by simp [hc]))
    simp [List.takeWhile_cons, List.dropWhile_cons, ha, ht.1, ht.2]

theorem digit_not_sign {c : Char} (h : c.isDigit = true) :
    (c == '+') = false ∧ (c == '-') = false := by
  constructor
  · cases hb : (c == '+') with
    | false => rfl
    | true => exact absurd (beq_iff_eq.mp hb ▸ h) (by decide)
  · cases hb : (c == '-') with
    | false => rfl
    | true => exact absurd (beq_iff_eq.mp hb ▸ h) (by decide)

theorem digitChar_isDigit (d : ℕ) : (digitChar d).isDigit = true := by
  unfold digitChar
  split_ifs <;> decide

theorem digitChar_toNat (d : ℕ) (h : d < 10) : (digitChar d).toNat - 48 = d := by
  unfold digitChar
  split_ifs with h0 h1 h2 h3 h4 h5 h6 h7 h8
  · rw [h0]; decide
  · rw [h1]; decide
  · rw [h2]; decide
  · rw [h3]; decide
  · rw [h4]; decide
  · rw [h5]; decide
  · rw [h6]; decide
  · rw [h7]; decide
  · rw [h8]; decide
  · have h9 : d = 9 := by omega
    rw [h9]; decide

theorem dv_foldl (b : List Char) : ∀ i : ℕ,
    b.foldl (fun a c => 10 * a + (c.toNat - 48)) i = i * 10 ^ b.length + digitsVal b := by
  induction b with
  | nil => intro i; simp [digitsVal]
  | cons c t ih =>
    intro i
    have h1 := ih (10 * i + (c.toNat - 48))
    have h2 := ih (c.toNat - 48)
    simp only [digitsVal, List.foldl_cons, List.length_cons, Nat.mul_zero, Nat.zero_add]
      at h1 h2 ⊢
    rw [h1, h2]
    ring

theorem dv_append (a b : List Char) :
    digitsVal (a ++ b) = digitsVal a * 10 ^ b.length + digitsVal b := by
  simp only [digitsVal, List.foldl_append]
  exact dv_foldl b _

theorem dv_replicate (k : ℕ) : digitsVal (List.replicate k '0') = 0 := by
  induction k with
  | zero => rfl
  | succ n ih =>
    show digitsVal ('0' :: List.replicate n '0') = 0
    simp only [digitsVal, List.foldl_cons] at ih ⊢
    have h0 : (10 * 0 + (('0').toNat - 48)) = 0 := by decide
    rw [h0]
    exact ih

theorem natDigits_spec (n : ℕ) :
    digitsVal (natDigits n) = n ∧ natDigits n ≠ [] ∧ ∀ c ∈ natDigits n, c.isDigit = true := by
  induction n using Nat.strong_induction_on with
  | _ n ih =>
    by_cases h : n < 10
    · rw [natDigits, dif_pos h]
      refine ⟨?_, by simp, ?_⟩
      · simp only [digitsVal, List.foldl_cons, List.foldl_nil, Nat.mul_zero, Nat.zero_add]
        exact digitChar_toNat n h
      · intro c hc
        simp only [List.mem_singleton] at hc
        subst hc
        exact digitChar_isDigit n
    · have hlt : n / 10 < n := Nat.div_lt_self (by omega) (by norm_num)
      obtain ⟨ihv, ihne, ihd⟩ := ih (n / 10) hlt
      rw [natDigits, dif_neg h]
      refine ⟨?_, by simp, ?_⟩
      · rw [dv_append, ihv]
        have hm : digitsVal [digitChar (n % 10)] = n % 10 := by
          simp only [digitsVal, List.foldl_cons, List.foldl_nil, Nat.mul_zero, Nat.zero_add]
          exact digitChar_toNat (n % 10) (Nat.mod_lt n (by norm_num))
        rw [hm]
        simp only [List.length_singleton, pow_one]
        omega
      · intro c hc
        rcases List.mem_append.mp hc with h2 | h2
        · exact ihd c h2
        · simp only [List.mem_singleton] at h2
          subst h2
          exact digitChar_isDigit (n % 10)

theorem dvd_pow_ten_self (d : ℕ) : ∀ j : ℕ, d ∣ 10 ^ j → d ∣ 10 ^ d := by
  induction d using Nat.strong_induction_on with
  | _ d ih =>
    intro j hdvd
    rcases Nat.eq_zero_or_pos d with h0 | hpos
    · subst h0
      exact absurd (Nat.eq_zero_of_zero_dvd hdvd)
        (by positivity : (0 : ℕ) < 10 ^ j).ne'
    by_cases h1 : d = 1
    · subst h1
      exact one_dvd _
    have hp := Nat.minFac_prime h1
    have hpd := Nat.minFac_dvd d
    obtain ⟨c, hc⟩ := hpd
    have hp10 : d.minFac ∣ 10 := hp.dvd_of_dvd_pow (dvd_trans (Nat.minFac_dvd d) hdvd)
    have hcpos : 0 < c := by
      rcases Nat.eq_zero_or_pos c with rfl | h2
      · simp at hc
        omega
      · exact h2
    have hclt : c < d := by nlinarith [hp.two_le]
    have hcd : c ∣ d := by
      have h2 : c ∣ d.minFac * c := dvd_mul_left c d.minFac
      rw [← hc] at h2
      exact h2
    have ihc := ih c hclt j (dvd_trans hcd hdvd)
    have h2 : d ∣ 10 * 10 ^ c := by
      have h3 : d.minFac * c ∣ 10 * 10 ^ c := mul_dvd_mul hp10 ihc
      rw [← hc] at h3
      exact h3
    refine dvd_trans h2 ?_
    rw [← pow_succ']
    exact pow_dvd_pow 10 (by omega)

theorem pow10Exp_dvd (d : ℕ) (h : ∃ j, d ∣ 10 ^ j) : d ∣ 10 ^ pow10Exp d := by
  obtain ⟨j, hj⟩ := h
  have hd : d ∣ 10 ^ d := dvd_pow_ten_self d j hj
  have hprop : (10 ^ d % d == 0) = true := by
    rw [beq_iff_eq]
    obtain ⟨c, hc⟩ := hd
    rw [hc]
    exact Nat.mul_mod_right d c
  cases hf : (List.range (d + 1)).find? (fun k => 10 ^ k % d == 0) with
  | none =>
    exact absurd hprop (List.find?_eq_none.mp hf d (List.mem_range.mpr (by omega)))
  | some k =>
    have hk := List.find?_some hf
    rw [beq_iff_eq] at hk
    have hpe : pow10Exp d = k := by simp [pow10Exp, hf]
    rw [hpe]
    exact Nat.dvd_of_mod_eq_zero hk

theorem coreTok_int (I : List Char) (hI : ∀ c ∈ I, c.isDigit = true) (hne : I ≠ []) :
    coreTok I = some ⟨false, I, [], none⟩ := by
  obtain ⟨htw, hdw⟩ := tw_all Char.isDigit I hI
  have hie : I.isEmpty = false := by
    cases I
    · exact absurd rfl hne
    · rfl
  unfold coreTok
  rw [hdw, htw]
  simp only [hie]
  rfl

theorem coreTok_dec (I F : List Char) (hI : ∀ c ∈ I, c.isDigit = true)
    (hF : ∀ c ∈ F, c.isDigit = true) (hFne : F ≠ []) :
    coreTok (I ++ '.' :: F) = some ⟨false, I, F, none⟩ := by
  obtain ⟨htw, hdw⟩ := tw_break Char.isDigit '.' F (by decide) I hI
  obtain ⟨htwF, hdwF⟩ := tw_all Char.isDigit F hF
  have hFe : F.isEmpty = false := by
    cases F
    · exact absurd rfl hFne
    · rfl
  unfold coreTok
  rw [hdw, htw]
  simp only [htwF, hdwF, hFe]
  rfl

theorem matchAt_digit (t : NumTok) (c : Char) (r : List Char)
    (hc : c.isDigit = true) (h : coreTok (c :: r) = some t) :
    matchAt (c :: r) = some t := by
  obtain ⟨h1, h2⟩ := digit_not_sign hc
  simp only [matchAt]
  rw [if_neg (by simp [h1]), if_neg (by simp [h2])]
  exact h

theorem matchAt_negSign (cs : List Char) (t : NumTok) (h : coreTok cs = some t) :
    matchAt ('-' :: cs) = some { t with neg := true } := by
  simp only [matchAt]
  rw [if_neg (by decide), if_pos (by decide)]
  rw [h]
  rfl

theorem searchTok_cons (c : Char) (cs : List Char) (t : NumTok)
    (h : matchAt (c :: cs) = some t) : searchTok (c :: cs) = some t := by
  unfold searchTok
  rw [h]

theorem tokVal_mk_false (ip fp : List Char) (e : Option (Bool × List Char)) :
    tokVal ⟨false, ip, fp, e⟩
      = ((digitsVal ip : ℚ) + (digitsVal fp : ℚ) / (10 : ℚ) ^ fp.length)
        * (10 : ℚ) ^ expVal e := by
  simp [tokVal]

theorem tokVal_negSet (t : NumTok) (h : t.neg = false) :
    tokVal { t with neg := true } = - tokVal t := by
  simp only [tokVal, h, Bool.false_eq_true, if_false, if_true]
  ring

theorem padDigits_facts (k : ℕ) (ds : List Char) (hds : ∀ c ∈ ds, c.isDigit = true)
    (hne : ds ≠ []) :
    (∀ c ∈ padDigits k ds, c.isDigit = true) ∧ k + 1 ≤ (padDigits k ds).length
      ∧ digitsVal (padDigits k ds) = digitsVal ds ∧ padDigits k ds ≠ [] := by
  unfold padDigits
  refine ⟨?_, ?_, ?_, ?_⟩
  · intro c hc
    rcases List.mem_append.mp hc with h2 | h2
    · have h3 := List.eq_of_mem_replicate h2
      subst h3
      decide
    · exact hds c h2
  · rw [List.length_append, List.length_replicate]
    omega
  · rw [dv_append, dv_replicate, Nat.zero_mul, Nat.zero_add]
  · intro hcontra
    exact hne (List.append_eq_nil.mp hcontra).2

theorem renderDigits_parse (m : ℤ) (k : ℕ) :
    ∃ t : NumTok, coreTok (renderDigits m k) = some t ∧ t.neg = false
      ∧ tokVal t = (m.natAbs : ℚ) / (10 : ℚ) ^ k
      ∧ (∃ c r, renderDigits m k = c :: r ∧ c.isDigit = true) := by
  obtain ⟨hnv, hnn, hnd⟩ := natDigits_spec m.natAbs
  obtain ⟨hp1, hp2, hp3, hp4⟩ := padDigits_facts k (natDigits m.natAbs) hnd hnn
  by_cases hk : k = 0
  · subst hk
    rw [renderDigits, if_pos rfl]
    obtain ⟨c, r, hcr⟩ : ∃ c r, padDigits 0 (natDigits m.natAbs) = c :: r := by
      cases hpd : padDigits 0 (natDigits m.natAbs) with
      | nil => exact absurd hpd hp4
      | cons c r => exact ⟨c, r, rfl⟩
    refine ⟨⟨false, padDigits 0 (natDigits m.natAbs), [], none⟩,
      coreTok_int _ hp1 hp4, rfl, ?_, c, r, hcr, hp1 c (by rw [hcr]; simp)⟩
    rw [tokVal_mk_false, hp3, hnv]
    norm_num [digitsVal, expVal]
  · have hkpos : 0 < k := Nat.pos_of_ne_zero hk
    rw [renderDigits, if_neg hk]
    set pad := padDigits k (natDigits m.natAbs) with hpad
    set i := pad.length - k with hi
    have hIF : pad.take i ++ pad.drop i = pad := List.take_append_drop i pad
    have hFlen : (pad.drop i).length = k := by
      rw [List.length_drop]
      omega
    have hIlen : (pad.take i).length = i := by
      rw [List.length_take]
      omega
    have hIne : pad.take i ≠ [] := by
      intro h0
      rw [h0] at hIlen
      simp at hIlen
      omega
    have hFne : pad.drop i ≠ [] := by
      intro h0
      rw [h0] at hFlen
      simp at hFlen
      omega
    have hId : ∀ c ∈ pad.take i, c.isDigit = true :=
      fun c hc => hp1 c (List.take_subset i pad hc)
    have hFd : ∀ c ∈ pad.drop i, c.isDigit = true :=
      fun c hc => hp1 c (List.drop_subset i pad hc)
    obtain ⟨c, r, hcr⟩ : ∃ c r, pad.take i = c :: r := by
      cases hpd : pad.take i with
      | nil => exact absurd hpd hIne
      | cons c r => exact ⟨c, r, rfl⟩
    refine ⟨⟨false, pad.take i, pad.drop i, none⟩,
      coreTok_dec _ _ hId hFd hFne, rfl, ?_,
      c, r ++ '.' :: pad.drop i, by rw [hcr]; rfl, hId c (by rw [hcr]; simp)⟩
    rw [tokVal_mk_false]
    simp only [expVal, zpow_zero, mul_one, hFlen]
    have hdvp : digitsVal (pad.take i) * 10 ^ k + digitsVal (pad.drop i) = m.natAbs := by
      have h2 := dv_append (pad.take i) (pad.drop i)
      rw [hIF, hFlen] at h2
      rw [← h2, hp3, hnv]
    have h10 : ((10 : ℚ)) ^ k ≠ 0 := by positivity
    rw [eq_div_iff h10, add_mul, div_mul_cancel₀ _ h10]
    exact_mod_cast hdvp

theorem tokVal_div (t : NumTok) : ∃ (N : ℤ) (D : ℕ), tokVal t = (N : ℚ) / (10 : ℚ) ^ D := by
  have hsgn : ∀ X : ℚ, (if t.neg = true then -X else X)
      = (((if t.neg = true then (-1 : ℤ) else 1) : ℤ) : ℚ) * X := by
    intro X
    cases t.neg <;> simp
  rcases le_or_lt 0 (expVal t.exp) with he | he
  · refine ⟨(if t.neg = true then (-1 : ℤ) else 1)
      * ((digitsVal t.ip : ℤ) * 10 ^ t.fp.length + digitsVal t.fp)
      * 10 ^ (expVal t.exp).toNat, t.fp.length, ?_⟩
    have hzp : (10 : ℚ) ^ expVal t.exp = (10 : ℚ) ^ (expVal t.exp).toNat := by
      rw [← zpow_natCast (10 : ℚ) (expVal t.exp).toNat, Int.toNat_of_nonneg he]
    unfold tokVal
    rw [hzp, hsgn]
    have h10 : ((10 : ℚ)) ^ t.fp.length ≠ 0 := by positivity
    push_cast
    field_simp
  · refine ⟨(if t.neg = true then (-1 : ℤ) else 1)
      * ((digitsVal t.ip : ℤ) * 10 ^ t.fp.length + digitsVal t.fp),
      t.fp.length + (-expVal t.exp).toNat, ?_⟩
    have hzp : (10 : ℚ) ^ expVal t.exp = ((10 : ℚ) ^ (-expVal t.exp).toNat)⁻¹ := by
      rw [← zpow_natCast (10 : ℚ) (-expVal t.exp).toNat,
        Int.toNat_of_nonneg (by omega : (0 : ℤ) ≤ -expVal t.exp), zpow_neg, inv_inv]
    unfold tokVal
    rw [hzp, hsgn]
    have h10 : ((10 : ℚ)) ^ t.fp.length ≠ 0 := by positivity
    have h10b : ((10 : ℚ)) ^ (-expVal t.exp).toNat ≠ 0 := by positivity
    push_cast
    rw [pow_add]
    field_simp

theorem den_dvd_pow10 (q : ℚ) (N : ℤ) (D : ℕ) (h : q = (N : ℚ) / (10 : ℚ) ^ D) :
    (q.den : ℕ) ∣ 10 ^ D := by
  have h10 : ((10 : ℚ)) ^ D = (((10 : ℤ) ^ D : ℤ) : ℚ) := by push_cast; ring
  have h2 : q = Rat.divInt N ((10 : ℤ) ^ D) := by
    rw [Rat.divInt_eq_div, h, h10]
  have h3 := Rat.den_dvd N ((10 : ℤ) ^ D)
  rw [← h2] at h3
  have h4 : ((q.den : ℤ)) ∣ (((10 ^ D : ℕ) : ℤ)) := by
    push_cast
    exact h3
  exact_mod_cast h4

theorem renderQ_parse (q : ℚ) (hden : (q.den : ℕ) ∣ 10 ^ pow10Exp q.den) :
    ∃ t, searchTok (renderQ q).toList = some t ∧ tokVal t = q := by
  have hdvd : ((q.den : ℤ)) ∣ q.num * (10 : ℤ) ^ pow10Exp q.den := by
    have h2 : ((q.den : ℤ)) ∣ ((10 : ℤ)) ^ pow10Exp q.den := by
      have h3 : ((q.den : ℤ)) ∣ (((10 ^ pow10Exp q.den : ℕ) : ℤ)) :=
        Int.natCast_dvd_natCast.mpr hden
      push_cast at h3
      exact h3
    exact Dvd.dvd.mul_left h2 q.num
  set m : ℤ := q.num * (10 : ℤ) ^ pow10Exp q.den / (q.den : ℤ) with hm
  have hden0 : ((q.den : ℚ)) ≠ 0 := by
    exact_mod_cast q.den_nz
  have hmq : (m : ℚ) = q * (10 : ℚ) ^ pow10Exp q.den := by
    have h1 : m * (q.den : ℤ) = q.num * (10 : ℤ) ^ pow10Exp q.den := Int.ediv_mul_cancel hdvd
    have h2 : (m : ℚ) * (q.den : ℚ) = (q.num : ℚ) * (10 : ℚ) ^ pow10Exp q.den := by
      exact_mod_cast h1
    have h3 : q * (10 : ℚ) ^ pow10Exp q.den * (q.den : ℚ)
        = (q.num : ℚ) * (10 : ℚ) ^ pow10Exp q.den := by
      rw [mul_comm q ((10 : ℚ) ^ pow10Exp q.den), mul_assoc, Rat.mul_den_eq_num, mul_comm]
    exact mul_right_cancel₀ hden0 (h2.trans h3.symm)
  have h10 : ((10 : ℚ)) ^ pow10Exp q.den ≠ 0 := by positivity
  have hq_eq : q = (m : ℚ) / (10 : ℚ) ^ pow10Exp q.den := by
    rw [hmq]
    field_simp
  obtain ⟨t, hct, hneg, hval, c, r, hcr, hcd⟩ := renderDigits_parse m (pow10Exp q.den)
  have habs : ((m.natAbs : ℚ)) = |((m : ℚ))| := by
    rw [Int.cast_natAbs, Int.cast_abs]
  by_cases hneg2 : m < 0
  · have hrq : (renderQ q).toList = '-' :: renderDigits m (pow10Exp q.den) := by
      unfold renderQ
      rw [← hm, if_pos hneg2, toList_mk]
    rw [hrq]
    refine ⟨{ t with neg := true }, searchTok_cons _ _ _ (matchAt_negSign _ _ hct), ?_⟩
    rw [tokVal_negSet t hneg, hval, habs,
      abs_of_neg (by exact_mod_cast hneg2 : ((m : ℚ)) < 0), neg_div, neg_neg]
    exact hq_eq.symm
  · have hrq : (renderQ q).toList = renderDigits m (pow10Exp q.den) := by
      unfold renderQ
      rw [← hm, if_neg hneg2, toList_mk]
    rw [hrq, hcr]
    refine ⟨t, searchTok_cons _ _ _ (matchAt_digit t c r hcd (hcr ▸ hct)), ?_⟩
    rw [hval, habs,
      abs_of_nonneg (by exact_mod_cast not_lt.mp hneg2 : (0 : ℚ) ≤ ((m : ℚ)))]
    exact hq_eq.symm

/-! ### C8: the claim theorems -/

/-- C8 is false as stated: `extract_number('1e999')` overflows `float` to
    infinity, a producible non-missing value, but `str(inf) = 'inf'`
    contains no digit, so re-extraction gives the missing value NaN, not
    the original value. -/
theorem extract_inf_cx :
    extractNumber (some ("1e999")) = PyNum.inf
  ∧ extractNumber (some (strOfPyNum PyNum.inf)) = PyNum.nan
  ∧ PyNum.inf ≠ PyNum.nan := by
  refine ⟨?_, by decide, by decide⟩
  have hst : searchTok ("1e999").toList
      = some ⟨false, [('1')], [], some (false, [('9'), ('9'), ('9')])⟩ := by decide
  simp only [extractNumber, hst]
  have hv : tokVal ⟨false, [('1')], [], some (false, [('9'), ('9'), ('9')])⟩
      = (10 : ℚ) ^ (999 : ℕ) := by
    rw [tokVal_mk_false]
    have h1 : digitsVal [('1')] = 1 := by decide
    have h9 : digitsVal [('9'), ('9'), ('9')] = 999 := by decide
    have he : expVal (some (false, [('9'), ('9'), ('9')])) = (999 : ℤ) := by
      simp [expVal, h9]
    rw [h1, he]
    have hz : (10 : ℚ) ^ (999 : ℤ) = (10 : ℚ) ^ (999 : ℕ) := by
      rw [← zpow_natCast (10 : ℚ) 999]
      norm_num
    rw [hz]
    norm_num [digitsVal]
  rw [hv]
  unfold pyFloatOfRat
  rw [if_pos (by norm_num [ovf])]

/-- C8 (amended): numeric extraction is idempotent on every finite value
    it can produce: if `extract_number` yields the finite value `q` on
    some cell, then re-extracting from the stringified value gives `q`
    back; only the infinite overflow values fail to round-trip. -/
theorem extract_roundtrip (s : String) (q : ℚ)
    (h : extractNumber (some s) = PyNum.num q) :
    extractNumber (some (strOfPyNum (PyNum.num q))) = PyNum.num q := by
  have hq : ∃ t, searchTok s.toList = some t ∧ tokVal t = q
      ∧ ¬ ovf ≤ q ∧ ¬ q ≤ -ovf := by
    cases hst : searchTok s.toList with
    | none =>
      simp only [extractNumber, hst] at h
      cases h
    | some t =>
      simp only [extractNumber, hst] at h
      unfold pyFloatOfRat at h
      split_ifs at h with h1 h2
      injection h with hv
      exact ⟨t, rfl, hv, hv ▸ h1, hv ▸ h2⟩
  obtain ⟨t, hst, hv, h1, h2⟩ := hq
  obtain ⟨N, D, hND⟩ := tokVal_div t
  have hden : (q.den : ℕ) ∣ 10 ^ D := den_dvd_pow10 q N D (by rw [← hv, hND])
  have hpw : (q.den : ℕ) ∣ 10 ^ pow10Exp q.den := pow10Exp_dvd q.den ⟨D, hden⟩
  obtain ⟨t2, hs2, hv2⟩ := renderQ_parse q hpw
  show extractNumber (some (renderQ q)) = PyNum.num q
  simp only [extractNumber, hs2, hv2]
  unfold pyFloatOfRat
  rw [if_neg h1, if_neg h2]

theorem extract_roundtrip_witness :
    extractNumber (some (strOfPyNum (PyNum.num (26 / 5)))) = PyNum.num (26 / 5) := by
  refine extract_roundtrip ("5.2 ms") (26 / 5) ?_
  have hst : searchTok ("5.2 ms").toList = some ⟨false, [('5')], [('2')], none⟩ := by decide
  simp only [extractNumber, hst]
  have hv : tokVal ⟨false, [('5')], [('2')], none⟩ = 26 / 5 := by
    rw [tokVal_mk_false]
    have h5 : digitsVal [('5')] = 5 := by decide
    have h2 : digitsVal [('2')] = 2 := by decide
    rw [h5, h2]
    norm_num [expVal]
  rw [hv]
  unfold pyFloatOfRat
  rw [if_neg (by norm_num [ovf]), if_neg (by norm_num [ovf])]

/-! ### C1 -/

/-- C1 fails on the code: the aggregation dict of line 233 does not
    carry `CI95_ms`, so the source CI95 column is dropped from `summary`
    and the guard of line 248 is always false.  With a source CI95 of 99
    but StdDev 1 and 4 samples, the summary CI95 is the fallback
    1.96/sqrt(4) = 0.98, not 99. -/
theorem source_ci95_ignored :
    aggregate exT1 = Except.ok [exAgg1]
  ∧ (fillCI 30 exAgg1).CI95_ms = some ((49 : ℝ) / 50)
  ∧ ((49 : ℝ) / 50) ≠ 99
  ∧ exT1.cols.contains ("CI95_ms") = true
  ∧ exT1.rows.map (fun r => r.cell ("CI95_ms")) = [some 99] := by
  refine ⟨?_, ?_, by norm_num, by decide, by decide⟩
  · simp +decide [aggregate, groupKeys, groupRows, dedup, insSortBy, insertBy, strLt,
      charListLt, exT1, exAgg1, cellsOf, requiredCols, nanMean_single, nanMax_single,
      sumCols]
  · have h4 : pyTrunc ((some (4 : ℚ)).getD ((30 : ℤ) : ℚ)) = 4 := by norm_num [pyTrunc]
    simp only [fillCI, compute_ci95, exAgg1, h4]
    rw [if_neg (by norm_num)]
    rw [show (((4 : ℤ)) : ℝ) = (2 : ℝ) ^ 2 by norm_num,
      Real.sqrt_sq (by norm_num : (0 : ℝ) ≤ 2)]
    norm_num

end AB
